import Mathlib

/-!
Verification of the PyCDE BSP MMIO controller (`frontends/PyCDE/src/bsp/common.py`)
against its natural-language specification.

The development shallowly embeds the `AxiMMIO` service implementation:

* `build_table` (address-table construction) as a pure recursive function;
* the read path (`build_read`) as a step function on an explicit register state,
  one step per clock edge;
* the manifest-write capture logic (`build_manifest_write`) likewise.

Primitives that live outside this repository's sources (`ControlReg`, `.reg`,
`Mux`, `Wire` from `pycde.constructs`) are modelled from the specification's
description of them (set-dominant control registers, clock-enabled registers,
index-selected multiplexers).  Machine integers are `Nat`; the AXI-lite address
bus is 20 bits wide and all comparisons in the source are against small
constants, so no wrap-around arises in the embedded fragments.
-/

namespace AxiMMIO

/-- Magic number low word, from the source constant `MagicNumberLo`. -/
def MagicNumberLo : Nat := 0xE5100E51

/-- Magic number high word, from the source constant `MagicNumberHi`. -/
def MagicNumberHi : Nat := 0x207D98E5

/-- ESI version number, from the source constant `VersionNumber`. -/
def VersionNumber : Nat := 0

/-- Start address for assigning MMIO addresses to service requests
(`AxiMMIO.initial_offset`). -/
def initial_offset : Nat := 0x100

/-- Manifest DMA write address offset (`AxiMMIO.manifest_offset`). -/
def manifest_offset : Nat := 0x18

/-- Modelled from the spec: the `ChannelDirection` enumeration from
`pycde.types` is not part of the sources under review; the spec states that
endpoint descriptors may carry an unrecognized direction which the table
builder silently skips, so a third constructor stands for any such value. -/
inductive ChannelDirection where
  | Input : ChannelDirection
  | Output : ChannelDirection
  | Other : ChannelDirection
deriving DecidableEq, Repr

/-- An endpoint descriptor: a direction tag plus an identity distinguishing
descriptors (the bundle object in the source). -/
structure Endpoint where
  dir : ChannelDirection
  id : Nat
deriving DecidableEq, Repr

/-- The loop body of `AxiMMIO.build_table`: iterate the endpoint sequence in
order with one running `offset`; record Input-direction endpoints in the read
table, Output-direction endpoints in the write table, advancing the shared
offset by 4 for each recorded endpoint; any other direction is skipped.
Tables are association lists in insertion order (Python dict order). -/
def build_table_go : List Endpoint → Nat →
    List (Nat × Endpoint) × List (Nat × Endpoint) × Nat
  | [], offset => ([], [], offset)
  | e :: rest, offset =>
    match e.dir with
    | ChannelDirection.Input =>
      let (r, w, f) := build_table_go rest (offset + 4)
      ((offset, e) :: r, w, f)
    | ChannelDirection.Output =>
      let (r, w, f) := build_table_go rest (offset + 4)
      (r, (offset, e) :: w, f)
    | ChannelDirection.Other => build_table_go rest offset

/-- `AxiMMIO.build_table`: returns the read table, the write table, and
`manifest_loc = 1 <<< offset.bit_length()` computed from the final running
offset.  Python's `int.bit_length` on a nonnegative integer is `Nat.size`. -/
def build_table (eps : List Endpoint) :
    List (Nat × Endpoint) × List (Nat × Endpoint) × Nat :=
  let (r, w, f) := build_table_go eps initial_offset
  (r, w, 1 <<< Nat.size f)

/-- The allocation trace of the `build_table` loop: the recorded
(offset, endpoint) pairs in traversal order, across both tables. -/
def allocs : List Endpoint → Nat → List (Nat × Endpoint)
  | [], _ => []
  | e :: rest, offset =>
    match e.dir with
    | ChannelDirection.Input => (offset, e) :: allocs rest (offset + 4)
    | ChannelDirection.Output => (offset, e) :: allocs rest (offset + 4)
    | ChannelDirection.Other => allocs rest offset

/-- An endpoint is recorded by the table builder when its direction is
Input or Output. -/
def recorded (e : Endpoint) : Bool :=
  e.dir == ChannelDirection.Input || e.dir == ChannelDirection.Output

/-- The value the spec's words ascribe to the backing-store base: the
power-of-two rounding applied to the offset reached after allocating only the
Read-direction (Input) endpoints, ignoring Write-direction endpoints.  Stated
for refinement comparison against `build_table`, which the source computes
from the shared final offset. -/
def spec_read_only_base (eps : List Endpoint) : Nat :=
  1 <<< Nat.size
    (initial_offset +
      4 * (eps.countP fun e => e.dir == ChannelDirection.Input))

/-! ### Read path (`AxiMMIO.build_read`)

One step per clock edge.  Register state and per-cycle inputs follow the
source signal names.  The manifest ROM is the external backing store: its
32-bit `data` output in the current cycle is an input (`romData`) to the
controller, as the ROM itself is outside this controller (interface-only
collaborator with a fixed two-cycle read latency).

The header lookup `header[address[2:5]]` indexes a 6-element array with a
3-bit word index; an index past the end has no defined value in the source,
so the data path carries `Option Nat`, with `none` for such a lookup. -/

/-- Register state of the read path.  `mv1`/`mv2` are the two stages of the
`cycles=2` register producing `mani_valid_reg`. -/
structure RState where
  req_outstanding : Bool
  address : Nat
  address_valid : Bool
  mv1 : Bool
  mv2 : Bool
  data_out_valid : Bool
  data_reg : Option Nat
  rresp_reg : Nat
deriving DecidableEq, Repr

/-- Per-cycle inputs of the read path: reset, the AR channel, the R-channel
ready, and the manifest ROM's current data output. -/
structure RIn where
  rst : Bool
  arvalid : Bool
  araddr : Nat
  rready : Bool
  romData : Nat
deriving DecidableEq, Repr

/-- Reset state of the read path registers. -/
def rReset : RState :=
  { req_outstanding := false, address := 0, address_valid := false,
    mv1 := false, mv2 := false, data_out_valid := false,
    data_reg := some 0, rresp_reg := 0 }

/-- `arready = ~req_outstanding`. -/
def arready (s : RState) : Bool := !s.req_outstanding

/-- `address_written = arvalid & ~req_outstanding`: the read address phase
completes this cycle. -/
def address_written (s : RState) (i : RIn) : Bool :=
  i.arvalid && !s.req_outstanding

/-- `header_sel`: the upper bits of the registered word address
(`address_words[initial_offset.bit_length() - 2:]`, i.e. word-address bits 7
and up) are all zero. -/
def header_sel (addr : Nat) : Bool := addr / 4 / 2 ^ 7 == 0

/-- The header word index `address[2:5]`: bits 2..4 of the byte address, a
3-bit word index. -/
def header_index (addr : Nat) : Nat := addr / 4 % 8

/-- The header array
`[0, 0, MagicNumberLo, MagicNumberHi, VersionNumber, manifest_loc]`. -/
def header (m : Nat) : List Nat :=
  [0, 0, MagicNumberLo, MagicNumberHi, VersionNumber, m]

/-- `header_out = header[address[2:5]]`, `none` when the 3-bit index points
past the end of the 6-word array. -/
def header_out (m : Nat) (s : RState) : Option Nat :=
  (header m).get? (header_index s.address)

/-- `response_written = data_out_valid & rready`: the response phase
completes this cycle (`rvalid = data_out_valid`). -/
def response_written (s : RState) (i : RIn) : Bool :=
  s.data_out_valid && i.rready

/-- `data_pipeline_valid = Mux(~header_sel, header_response_valid,
mani_valid)` with `header_response_valid = address_valid` (zero-latency
header read) and `mani_valid` the 2-cycle delayed `address_valid`. -/
def data_pipeline_valid (s : RState) : Bool :=
  if header_sel s.address then s.address_valid else s.mv2

/-- `data_pipeline = Mux(~header_sel, header_out, mani_rom.data)`. -/
def data_pipeline (m : Nat) (s : RState) (i : RIn) : Option Nat :=
  if header_sel s.address then header_out m s else some i.romData

/-- `data_pipeline_rresp = Mux(~header_sel, header_rresp, mani_rresp)`; both
sources drive the success status 0. -/
def data_pipeline_rresp (s : RState) : Nat :=
  if header_sel s.address then 0 else 0

/-- One clock edge of the read path.  Modelled from the spec where the
primitive is outside the sources: `ControlReg` is set-dominant and cleared by
reset; `.reg(ce=...)` holds unless enabled; registers built without a reset
argument in the source (`address`, `address_valid`) ignore `rst`. -/
def rStep (m : Nat) (s : RState) (i : RIn) : RState :=
  { req_outstanding :=
      if i.rst then false
      else if address_written s i then true
      else if response_written s i then false
      else s.req_outstanding,
    address := if address_written s i then i.araddr else s.address,
    address_valid := address_written s i,
    mv1 := if i.rst then false else s.address_valid,
    mv2 := if i.rst then false else s.mv1,
    data_out_valid :=
      if i.rst then false
      else if data_pipeline_valid s then true
      else if response_written s i then false
      else s.data_out_valid,
    data_reg :=
      if i.rst then some 0
      else if data_pipeline_valid s then data_pipeline m s i
      else s.data_reg,
    rresp_reg :=
      if i.rst then 0
      else if data_pipeline_valid s then data_pipeline_rresp s
      else s.rresp_reg }

/-- `rvalid = data_out_valid`. -/
def rvalid (s : RState) : Bool := s.data_out_valid

/-- `rdata`: the registered data pipeline output. -/
def rdata (s : RState) : Option Nat := s.data_reg

/-- Run the read path from a state over a list of per-cycle inputs. -/
def rRun (m : Nat) (s : RState) (is : List RIn) : RState :=
  is.foldl (rStep m) s

/-! ### Manifest-write capture (`AxiMMIO.build_manifest_write`)

State machine over the AW channel.  `trigger_write` is combinational:
`addr_lo_valid & addr_hi_valid` on the current register values. -/

/-- Register state of the manifest-write capture.  The source's stubbed
`writing` latch is driven by a never-assigned `write_done` wire and feeds
nothing; it is not part of any claim and is omitted. -/
structure WState where
  addr_lo : Nat
  addr_lo_valid : Bool
  addr_hi : Nat
  addr_hi_valid : Bool
deriving DecidableEq, Repr

/-- Per-cycle inputs of the write-capture path: reset and the AW channel. -/
structure WIn where
  rst : Bool
  awvalid : Bool
  awaddr : Nat
deriving DecidableEq, Repr

/-- Reset state of the write-capture registers. -/
def wReset : WState :=
  { addr_lo := 0, addr_lo_valid := false, addr_hi := 0,
    addr_hi_valid := false }

/-- `is_write_lo = (awaddr == manifest_offset) & awvalid`. -/
def is_write_lo (i : WIn) : Bool :=
  (i.awaddr == manifest_offset) && i.awvalid

/-- `is_write_hi = (awaddr == manifest_offset + 0x4) & awvalid`. -/
def is_write_hi (i : WIn) : Bool :=
  (i.awaddr == manifest_offset + 0x4) && i.awvalid

/-- `trigger_write = addr_lo_valid & addr_hi_valid`, combinational on the
current register values. -/
def trigger_write (s : WState) : Bool :=
  s.addr_lo_valid && s.addr_hi_valid

/-- One clock edge of the manifest-write capture.  As in the source, the
`addr_hi` register's clock enable is `is_write_lo` (not `is_write_hi`).
`ControlReg` semantics are modelled from the spec: set-dominant, reset
clears; the plain `ce` registers ignore reset. -/
def wStep (s : WState) (i : WIn) : WState :=
  { addr_lo := if is_write_lo i then i.awaddr else s.addr_lo,
    addr_lo_valid :=
      if i.rst then false
      else if is_write_lo i then true
      else if trigger_write s then false
      else s.addr_lo_valid,
    addr_hi := if is_write_lo i then i.awaddr else s.addr_hi,
    addr_hi_valid :=
      if i.rst then false
      else if is_write_hi i then true
      else if trigger_write s then false
      else s.addr_hi_valid }

/-- Run the write-capture path from a state over a list of inputs. -/
def wRun (s : WState) (is : List WIn) : WState :=
  is.foldl wStep s

/-- Whether the trigger pulse is asserted in cycle `t` of a run from reset
over `is` (the trigger in cycle `t` is combinational on the state reached
after the first `t` inputs). -/
def trigAt (is : List WIn) (t : Nat) : Bool :=
  trigger_write (wRun wReset (is.take t))

/-- The number of cycles in `0..is.length` in which the trigger pulse is
asserted, running from reset over `is`. -/
def triggerCount (is : List WIn) : Nat :=
  (List.range (is.length + 1)).countP fun t => trigAt is t

/-- A write cycle addressed at the low half. -/
def wLo : WIn := { rst := false, awvalid := true, awaddr := manifest_offset }

/-- A write cycle addressed at the high half. -/
def wHi : WIn :=
  { rst := false, awvalid := true, awaddr := manifest_offset + 0x4 }

/-- An idle cycle: no write, no reset. -/
def wIdle : WIn := { rst := false, awvalid := false, awaddr := 0 }

/-! ### Theorems -/

/-- Pin the value of `Nat.size` (Python `int.bit_length`) between two powers
of two. -/
lemma size_eq_succ_of_bounds (n k : Nat) (h1 : 2 ^ k ≤ n) (h2 : n < 2 ^ (k + 1)) :
    Nat.size n = k + 1 := by
  have a : Nat.size n ≤ k + 1 := Nat.size_le.mpr h2
  have b : k < Nat.size n := Nat.lt_size.mpr h1
  omega

/-- The `build_table` loop, related to its allocation trace: the read table
keeps the Input-direction allocations, the write table the Output-direction
ones, and the final offset advances by 4 per recorded endpoint. -/
lemma build_table_go_eq (eps : List Endpoint) (off : Nat) :
    build_table_go eps off =
      ((allocs eps off).filter
        (fun p => p.2.dir == ChannelDirection.Input),
       (allocs eps off).filter
        (fun p => p.2.dir == ChannelDirection.Output),
       off + 4 * eps.countP recorded) := by
  induction eps generalizing off with
  | nil => simp [build_table_go, allocs]
  | cons e rest ih =>
    cases hd : e.dir <;>
      simp [build_table_go, allocs, hd, ih, recorded, List.countP_cons] <;>
      omega

/-- The offsets of the allocation trace form the arithmetic progression
starting at the initial offset with stride 4, one entry per recorded
endpoint. -/
lemma allocs_map_fst (eps : List Endpoint) (off : Nat) :
    (allocs eps off).map Prod.fst =
      List.range' off (eps.countP recorded) 4 := by
  induction eps generalizing off with
  | nil => simp [allocs]
  | cons e rest ih =>
    cases hd : e.dir <;>
      simp [allocs, hd, ih, recorded, List.countP_cons, List.range'_succ]

/-- The endpoints of the allocation trace are exactly the recorded
(Input- or Output-direction) endpoints, in traversal order. -/
lemma allocs_map_snd (eps : List Endpoint) (off : Nat) :
    (allocs eps off).map Prod.snd = eps.filter recorded := by
  induction eps generalizing off with
  | nil => simp [allocs]
  | cons e rest ih =>
    cases hd : e.dir <;> simp [allocs, hd, ih, recorded, List.filter_cons]

/-- Entries of the allocation trace with equal offsets are equal. -/
lemma allocs_fst_inj (eps : List Endpoint) (p q : Nat × Endpoint)
    (hp : p ∈ allocs eps initial_offset)
    (hq : q ∈ allocs eps initial_offset) (h : p.1 = q.1) : p = q := by
  have hnd : ((allocs eps initial_offset).map Prod.fst).Nodup := by
    rw [allocs_map_fst]
    exact List.nodup_range' _ _ 4
  have hpw : List.Pairwise (fun a b : Nat × Endpoint => a.1 ≠ b.1)
      (allocs eps initial_offset) := (List.pairwise_map).mp hnd
  by_contra hne
  exact (hpw.forall (fun _ _ hab => Ne.symm hab) hp hq hne) h

/-- C5: at the failing input (reset state, one cycle asserting `awvalid` with
`awaddr = manifest_offset + 4`), the high-half-valid flag is set but the
high-half register `addr_hi` is not latched (it keeps its previous value 0,
not the presented address), because the source gates `addr_hi` with
`ce=is_write_lo`; the low half, by contrast, does latch its payload. -/
theorem manifest_high_half_write_not_latched :
    (wStep wReset
        { rst := false, awvalid := true,
          awaddr := manifest_offset + 0x4 }).addr_hi_valid = true ∧
    (wStep wReset
        { rst := false, awvalid := true,
          awaddr := manifest_offset + 0x4 }).addr_hi = 0 ∧
    manifest_offset + 0x4 ≠ 0 ∧
    (wStep wReset
        { rst := false, awvalid := true,
          awaddr := manifest_offset }).addr_lo = manifest_offset := by
  decide

/-- C2: `build_table` iterates the endpoint sequence in order with one
shared running offset from `0x100`: the read table holds exactly the
Input-direction allocations and the write table the Output-direction ones;
the offsets handed out in traversal order across both tables form the
stride-4 arithmetic progression from `0x100` (hence every assigned offset
is unique, a multiple of 4, at least `0x100`, and strictly increasing in
traversal order); endpoints of any other direction receive no offset and
appear in neither table. -/
theorem build_table_allocation (eps : List Endpoint) :
    (build_table eps).1 =
      (allocs eps initial_offset).filter
        (fun p => p.2.dir == ChannelDirection.Input) ∧
    (build_table eps).2.1 =
      (allocs eps initial_offset).filter
        (fun p => p.2.dir == ChannelDirection.Output) ∧
    (allocs eps initial_offset).map Prod.fst =
      List.range' initial_offset (eps.countP recorded) 4 ∧
    (allocs eps initial_offset).map Prod.snd = eps.filter recorded ∧
    (∀ p ∈ (build_table eps).1, p.2.dir = ChannelDirection.Input) ∧
    (∀ p ∈ (build_table eps).2.1, p.2.dir = ChannelDirection.Output) ∧
    (∀ o ∈ ((build_table eps).1 ++ (build_table eps).2.1).map Prod.fst,
      initial_offset ≤ o ∧ o % 4 = 0) ∧
    (((build_table eps).1 ++ (build_table eps).2.1).map Prod.fst).Nodup ∧
    List.Pairwise (fun a b => a < b)
      ((allocs eps initial_offset).map Prod.fst) := by
  have h1 : (build_table eps).1 =
      (allocs eps initial_offset).filter
        (fun p => p.2.dir == ChannelDirection.Input) := by
    simp [build_table, build_table_go_eq]
  have h2 : (build_table eps).2.1 =
      (allocs eps initial_offset).filter
        (fun p => p.2.dir == ChannelDirection.Output) := by
    simp [build_table, build_table_go_eq]
  have hfst := allocs_map_fst eps initial_offset
  have hsub1 : ((build_table eps).1.map Prod.fst).Sublist
      ((allocs eps initial_offset).map Prod.fst) := by
    rw [h1]; exact (List.filter_sublist _).map _
  have hsub2 : ((build_table eps).2.1.map Prod.fst).Sublist
      ((allocs eps initial_offset).map Prod.fst) := by
    rw [h2]; exact (List.filter_sublist _).map _
  have hnd : ((allocs eps initial_offset).map Prod.fst).Nodup := by
    rw [hfst]; exact List.nodup_range' _ _ 4
  have hmem : ∀ o ∈ (allocs eps initial_offset).map Prod.fst,
      initial_offset ≤ o ∧ o % 4 = 0 := by
    intro o ho
    rw [hfst] at ho
    obtain ⟨i, _, rfl⟩ := List.mem_range'.mp ho
    unfold initial_offset
    omega
  refine ⟨h1, h2, hfst, allocs_map_snd eps initial_offset, ?_, ?_, ?_, ?_, ?_⟩
  · intro p hp
    rw [h1] at hp
    exact beq_iff_eq.mp (List.mem_filter.mp hp).2
  · intro p hp
    rw [h2] at hp
    exact beq_iff_eq.mp (List.mem_filter.mp hp).2
  · intro o ho
    rw [List.map_append] at ho
    rcases List.mem_append.mp ho with h | h
    · exact hmem o (hsub1.mem h)
    · exact hmem o (hsub2.mem h)
  · rw [List.map_append, List.nodup_append]
    refine ⟨hsub1.nodup hnd, hsub2.nodup hnd, ?_⟩
    intro o ho1 ho2
    obtain ⟨p, hp, hpo⟩ := List.mem_map.mp ho1
    obtain ⟨q, hq, hqo⟩ := List.mem_map.mp ho2
    rw [h1] at hp
    rw [h2] at hq
    have hpq : p = q := allocs_fst_inj eps p q
      (List.mem_of_mem_filter hp) (List.mem_of_mem_filter hq)
      (by rw [hpo, hqo])
    have hpi : p.2.dir = ChannelDirection.Input :=
      beq_iff_eq.mp (List.mem_filter.mp hp).2
    have hqi : q.2.dir = ChannelDirection.Output :=
      beq_iff_eq.mp (List.mem_filter.mp hq).2
    rw [hpq, hqi] at hpi
    exact ChannelDirection.noConfusion hpi
  · rw [hfst]
    exact List.pairwise_lt_range' _ _ 4

/-- C2 witness: a concrete mixed sequence (one Input, one Output, one
unrecognized direction) realizes the allocation: the Input endpoint lands in
the read table at 0x100, the Output endpoint in the write table at 0x104,
and the unrecognized one in neither. -/
theorem build_table_allocation_witness :
    (build_table [⟨ChannelDirection.Input, 1⟩, ⟨ChannelDirection.Output, 2⟩,
        ⟨ChannelDirection.Other, 3⟩]).1 =
      [(0x100, ⟨ChannelDirection.Input, 1⟩)] ∧
    (build_table [⟨ChannelDirection.Input, 1⟩, ⟨ChannelDirection.Output, 2⟩,
        ⟨ChannelDirection.Other, 3⟩]).2.1 =
      [(0x104, ⟨ChannelDirection.Output, 2⟩)] := by
  have h := build_table_allocation
    [⟨ChannelDirection.Input, 1⟩, ⟨ChannelDirection.Output, 2⟩,
     ⟨ChannelDirection.Other, 3⟩]
  rw [h.1, h.2.1]
  exact ⟨by decide, by decide⟩

/-- C3: the backing-store base returned by `build_table` is a power of two
strictly greater than every offset assigned in either table, and the empty
endpoint sequence yields empty tables with the minimal base `0x200`. -/
theorem build_table_base_bound (eps : List Endpoint) :
    (∃ k, (build_table eps).2.2 = 2 ^ k) ∧
    (∀ o ∈ ((build_table eps).1 ++ (build_table eps).2.1).map Prod.fst,
      o < (build_table eps).2.2) ∧
    build_table [] = ([], [], 0x200) := by
  have hbase : (build_table eps).2.2 =
      2 ^ Nat.size (initial_offset + 4 * eps.countP recorded) := by
    simp [build_table, build_table_go_eq, Nat.shiftLeft_eq]
  refine ⟨⟨_, hbase⟩, ?_, ?_⟩
  · intro o ho
    rw [List.map_append] at ho
    have homem : o ∈ (allocs eps initial_offset).map Prod.fst := by
      rcases List.mem_append.mp ho with h | h
      · refine List.Sublist.mem h ?_
        have h1 : (build_table eps).1 =
            (allocs eps initial_offset).filter
              (fun p => p.2.dir == ChannelDirection.Input) := by
          simp [build_table, build_table_go_eq]
        rw [h1]; exact (List.filter_sublist _).map _
      · refine List.Sublist.mem h ?_
        have h2 : (build_table eps).2.1 =
            (allocs eps initial_offset).filter
              (fun p => p.2.dir == ChannelDirection.Output) := by
          simp [build_table, build_table_go_eq]
        rw [h2]; exact (List.filter_sublist _).map _
    rw [allocs_map_fst] at homem
    obtain ⟨i, hi, rfl⟩ := List.mem_range'.mp homem
    have hf : initial_offset + 4 * i <
        initial_offset + 4 * eps.countP recorded := by omega
    have hlt := Nat.lt_size_self (initial_offset + 4 * eps.countP recorded)
    rw [hbase]
    omega
  · have hsz : Nat.size 0x100 = 9 :=
      size_eq_succ_of_bounds 0x100 8 (by norm_num) (by norm_num)
    simp [build_table, build_table_go, initial_offset, hsz,
      Nat.shiftLeft_eq]

/-- C3 witness: the empty endpoint sequence yields empty tables and the
minimal base `0x200`. -/
theorem build_table_base_bound_witness :
    build_table ([] : List Endpoint) = ([], [], 0x200) :=
  (build_table_base_bound []).2.2

/-- The backing-store base returned by `build_table`, in closed form: the
power-of-two rounding of the shared final offset. -/
lemma build_table_base_eq (eps : List Endpoint) :
    (build_table eps).2.2 =
      1 <<< Nat.size (initial_offset + 4 * eps.countP recorded) := by
  simp [build_table, build_table_go_eq]

/-- C4 counterexample: for 64 Write-direction endpoints and no
Read-direction endpoint, `build_table` returns base `0x400`, while the
power-of-two rounding of the offset reached after allocating only the
Read-direction endpoints gives `0x200`: the write table's extent is not
ignored. -/
theorem base_counterexample :
    (build_table
        (List.replicate 64 ⟨ChannelDirection.Output, 0⟩)).2.2 = 0x400 ∧
    spec_read_only_base
        (List.replicate 64 ⟨ChannelDirection.Output, 0⟩) = 0x200 ∧
    (0x400 : Nat) ≠ 0x200 := by
  have hc : (List.replicate 64
      (⟨ChannelDirection.Output, 0⟩ : Endpoint)).countP recorded = 64 := by
    rw [List.countP_replicate]
    rfl
  have hc2 : (List.replicate 64
      (⟨ChannelDirection.Output, 0⟩ : Endpoint)).countP
        (fun e => e.dir == ChannelDirection.Input) = 0 := by
    rw [List.countP_replicate]
    rfl
  have hsz9 : Nat.size 0x100 = 9 :=
    size_eq_succ_of_bounds 0x100 8 (by norm_num) (by norm_num)
  have hsz10 : Nat.size 0x200 = 10 :=
    size_eq_succ_of_bounds 0x200 9 (by norm_num) (by norm_num)
  refine ⟨?_, ?_, by norm_num⟩
  · rw [build_table_base_eq, hc]
    simp only [initial_offset]
    norm_num [hsz10, Nat.shiftLeft_eq]
  · simp only [spec_read_only_base, hc2, initial_offset]
    norm_num [hsz9, Nat.shiftLeft_eq]

/-- C4 amended: the backing-store base equals the power-of-two rounding of
the shared final offset, reached after allocating all recorded endpoints of
both directions (`0x100` plus 4 per recorded endpoint), regardless of
direction mix. -/
theorem base_from_shared_final_offset (eps : List Endpoint) :
    (build_table eps).2.2 =
      1 <<< Nat.size (initial_offset + 4 * eps.countP recorded) :=
  build_table_base_eq eps

/-- C8: completed header reads return the fixed constants: byte address 0x08
(word 2) returns `MagicNumberLo`, 0x0C (word 3) returns `MagicNumberHi`,
0x10 (word 4) returns 0, and 0x14 (word 5) returns the backing-store base
`m`; with `rready` asserted, the transaction completes and the outstanding
flag clears. -/
theorem header_readback (m : Nat) :
    (rvalid (rRun m rReset
        [⟨false, true, 0x08, false, 0⟩, ⟨false, false, 0, false, 0⟩]) = true ∧
      rdata (rRun m rReset
        [⟨false, true, 0x08, false, 0⟩, ⟨false, false, 0, false, 0⟩]) =
        some MagicNumberLo) ∧
    rdata (rRun m rReset
        [⟨false, true, 0x0C, false, 0⟩, ⟨false, false, 0, false, 0⟩]) =
      some MagicNumberHi ∧
    rdata (rRun m rReset
        [⟨false, true, 0x10, false, 0⟩, ⟨false, false, 0, false, 0⟩]) =
      some VersionNumber ∧
    rdata (rRun m rReset
        [⟨false, true, 0x14, false, 0⟩, ⟨false, false, 0, false, 0⟩]) =
      some m ∧
    (rRun m rReset
        [⟨false, true, 0x14, false, 0⟩, ⟨false, false, 0, false, 0⟩,
         ⟨false, false, 0, true, 0⟩]).req_outstanding = false := by
  refine ⟨⟨?_, ?_⟩, ?_, ?_, ?_, ?_⟩ <;>
    simp [rRun, rStep, rvalid, rdata, data_pipeline_valid, data_pipeline,
      data_pipeline_rresp, header_sel, header_out, header_index, header,
      address_written, response_written, rReset, MagicNumberLo, MagicNumberHi,
      VersionNumber]

/-- Projection of `rStep`: the outstanding flag. -/
lemma rStep_req (m : Nat) (s : RState) (i : RIn) :
    (rStep m s i).req_outstanding =
      (if i.rst = true then false
       else if address_written s i = true then true
       else if response_written s i = true then false
       else s.req_outstanding) := rfl

/-- Projection of `rStep`: the address register. -/
lemma rStep_address (m : Nat) (s : RState) (i : RIn) :
    (rStep m s i).address =
      (if address_written s i = true then i.araddr else s.address) := rfl

/-- Projection of `rStep`: the address-valid register. -/
lemma rStep_address_valid (m : Nat) (s : RState) (i : RIn) :
    (rStep m s i).address_valid = address_written s i := rfl

/-- Projection of `rStep`: the first manifest-valid delay stage. -/
lemma rStep_mv1 (m : Nat) (s : RState) (i : RIn) :
    (rStep m s i).mv1 =
      (if i.rst = true then false else s.address_valid) := rfl

/-- Projection of `rStep`: the second manifest-valid delay stage. -/
lemma rStep_mv2 (m : Nat) (s : RState) (i : RIn) :
    (rStep m s i).mv2 = (if i.rst = true then false else s.mv1) := rfl

/-- Projection of `rStep`: the response-valid control register. -/
lemma rStep_dov (m : Nat) (s : RState) (i : RIn) :
    (rStep m s i).data_out_valid =
      (if i.rst = true then false
       else if data_pipeline_valid s = true then true
       else if response_written s i = true then false
       else s.data_out_valid) := rfl

/-- Projection of `rStep`: the response data register. -/
lemma rStep_data_reg (m : Nat) (s : RState) (i : RIn) :
    (rStep m s i).data_reg =
      (if i.rst = true then some 0
       else if data_pipeline_valid s = true then data_pipeline m s i
       else s.data_reg) := rfl

/-- C9: response selection and latency, from a quiescent state in which a
read address phase completes in cycle 0 (inputs `i1, i2, i3, i4` drive
cycles 0..3 with reset deasserted).  The address is registered on the
capture edge.  The data, valid, and status pipeline outputs all switch on
the same select, `header_sel` of the registered address.  If the header
selector zone of the captured address is zero, the pipeline is valid in
cycle 1 with the corresponding header word — zero added latency beyond
address registration — and the response output registers hold it from cycle
2.  Otherwise the pipeline is invalid in cycles 1 and 2 and becomes valid
exactly in cycle 3, two cycles after address registration, sampling the
backing store's data output of that cycle, which the response output
registers hold from cycle 4. -/
theorem read_response_latency_mux (m : Nat) (s : RState) (i1 i2 i3 i4 : RIn)
    (h1 : i1.rst = false) (h2 : i2.rst = false) (h3 : i3.rst = false)
    (h4 : i4.rst = false)
    (hq1 : s.address_valid = false) (hq2 : s.mv1 = false)
    (hq3 : s.mv2 = false) (hq4 : s.data_out_valid = false)
    (hcap : address_written s i1 = true) :
    ((rStep m s i1).address = i1.araddr ∧
      (rStep m s i1).address_valid = true) ∧
    (data_pipeline m (rStep m s i1) i2 =
        (if header_sel i1.araddr then header_out m (rStep m s i1)
         else some i2.romData) ∧
      data_pipeline_valid (rStep m s i1) =
        (if header_sel i1.araddr then (rStep m s i1).address_valid
         else (rStep m s i1).mv2) ∧
      data_pipeline_rresp (rStep m s i1) = 0) ∧
    (header_sel i1.araddr = true →
      data_pipeline_valid (rStep m s i1) = true ∧
      (rStep m (rStep m s i1) i2).data_out_valid = true ∧
      (rStep m (rStep m s i1) i2).data_reg =
        (header m).get? (header_index i1.araddr)) ∧
    (header_sel i1.araddr = false →
      data_pipeline_valid (rStep m s i1) = false ∧
      data_pipeline_valid (rStep m (rStep m s i1) i2) = false ∧
      data_pipeline_valid (rStep m (rStep m (rStep m s i1) i2) i3) = true ∧
      (rStep m (rStep m (rStep m (rStep m s i1) i2) i3)
        i4).data_out_valid = true ∧
      (rStep m (rStep m (rStep m (rStep m s i1) i2) i3) i4).data_reg =
        some i4.romData) := by
  have edpv0 : data_pipeline_valid s = false := by
    simp [data_pipeline_valid, hq1, hq3]
  have e1 : (rStep m s i1).address = i1.araddr := by
    simp [rStep, hcap]
  have e2 : (rStep m s i1).address_valid = true := by
    simp [rStep, hcap]
  have e3 : (rStep m s i1).req_outstanding = true := by
    simp [rStep, h1, hcap]
  have e4 : (rStep m s i1).mv1 = false := by
    simp [rStep, h1, hq1]
  have e5 : (rStep m s i1).mv2 = false := by
    simp [rStep, h1, hq2]
  have e6 : (rStep m s i1).data_out_valid = false := by
    simp [rStep, h1, edpv0, response_written, hq4]
  have f0 : address_written (rStep m s i1) i2 = false := by
    simp [address_written, e3]
  have f0r : response_written (rStep m s i1) i2 = false := by
    simp [response_written, e6]
  have f3 : (rStep m (rStep m s i1) i2).address = i1.araddr := by
    rw [rStep_address, f0, if_neg Bool.false_ne_true]
    exact e1
  have f5 : (rStep m (rStep m s i1) i2).mv1 = true := by
    rw [rStep_mv1, h2, if_neg Bool.false_ne_true]
    exact e2
  have f6 : (rStep m (rStep m s i1) i2).mv2 = false := by
    rw [rStep_mv2, h2, if_neg Bool.false_ne_true]
    exact e4
  have f7 : (rStep m (rStep m s i1) i2).req_outstanding = true := by
    rw [rStep_req, h2, if_neg Bool.false_ne_true, f0,
      if_neg Bool.false_ne_true, f0r, if_neg Bool.false_ne_true]
    exact e3
  refine ⟨⟨e1, e2⟩, ?_, ?_, ?_⟩
  · refine ⟨?_, ?_, ?_⟩
    · unfold data_pipeline
      rw [e1]
    · unfold data_pipeline_valid
      rw [e1]
    · unfold data_pipeline_rresp
      rw [e1, ite_self]
  · intro hh
    have g1 : data_pipeline_valid (rStep m s i1) = true := by
      unfold data_pipeline_valid
      rw [e1, hh, if_pos rfl]
      exact e2
    refine ⟨g1, ?_, ?_⟩
    · rw [rStep_dov, h2, if_neg Bool.false_ne_true, g1, if_pos rfl]
    · rw [rStep_data_reg, h2, if_neg Bool.false_ne_true, g1, if_pos rfl]
      unfold data_pipeline
      rw [e1, hh, if_pos rfl]
      unfold header_out
      rw [e1]
  · intro hh
    have g1 : data_pipeline_valid (rStep m s i1) = false := by
      unfold data_pipeline_valid
      rw [e1, hh, if_neg Bool.false_ne_true]
      exact e5
    have g1d : (rStep m (rStep m s i1) i2).data_out_valid = false := by
      rw [rStep_dov, h2, if_neg Bool.false_ne_true, g1,
        if_neg Bool.false_ne_true, f0r, if_neg Bool.false_ne_true]
      exact e6
    have g2 : data_pipeline_valid (rStep m (rStep m s i1) i2) = false := by
      unfold data_pipeline_valid
      rw [f3, hh, if_neg Bool.false_ne_true]
      exact f6
    have k0 : address_written (rStep m (rStep m s i1) i2) i3 = false := by
      simp [address_written, f7]
    have k3 : (rStep m (rStep m (rStep m s i1) i2) i3).address =
        i1.araddr := by
      rw [rStep_address, k0, if_neg Bool.false_ne_true]
      exact f3
    have k6 : (rStep m (rStep m (rStep m s i1) i2) i3).mv2 = true := by
      rw [rStep_mv2, h3, if_neg Bool.false_ne_true]
      exact f5
    have g3 : data_pipeline_valid
        (rStep m (rStep m (rStep m s i1) i2) i3) = true := by
      unfold data_pipeline_valid
      rw [k3, hh, if_neg Bool.false_ne_true]
      exact k6
    refine ⟨g1, g2, g3, ?_, ?_⟩
    · rw [rStep_dov, h4, if_neg Bool.false_ne_true, g3, if_pos rfl]
    · rw [rStep_data_reg, h4, if_neg Bool.false_ne_true, g3, if_pos rfl]
      unfold data_pipeline
      rw [k3, hh, if_neg Bool.false_ne_true]

/-- C9 witness: both response paths realized concretely: a captured header
read at byte address 0x08 registers the address and returns the header
word, and a captured backing-store read at byte address 0x400 produces a
valid response holding the ROM data output (7) presented two cycles after
registration. -/
theorem read_response_latency_mux_witness :
    (rStep 512 rReset ⟨false, true, 0x08, false, 0⟩).address = 0x08 ∧
    (rStep 512 (rStep 512 rReset ⟨false, true, 0x08, false, 0⟩)
      ⟨false, false, 0, false, 7⟩).data_reg =
        (header 512).get? (header_index 0x08) ∧
    (rStep 512 (rStep 512 (rStep 512 (rStep 512 rReset
        ⟨false, true, 0x400, false, 0⟩) ⟨false, false, 0, false, 7⟩)
      ⟨false, false, 0, false, 7⟩) ⟨false, false, 0, false, 7⟩).data_reg =
        some 7 :=
  ⟨(read_response_latency_mux 512 rReset ⟨false, true, 0x08, false, 0⟩
      ⟨false, false, 0, false, 7⟩ ⟨false, false, 0, false, 7⟩
      ⟨false, false, 0, false, 7⟩ rfl rfl rfl rfl rfl rfl rfl rfl
      rfl).1.1,
   ((read_response_latency_mux 512 rReset ⟨false, true, 0x08, false, 0⟩
      ⟨false, false, 0, false, 7⟩ ⟨false, false, 0, false, 7⟩
      ⟨false, false, 0, false, 7⟩ rfl rfl rfl rfl rfl rfl rfl rfl
      rfl).2.2.1 (by decide)).2.2,
   ((read_response_latency_mux 512 rReset ⟨false, true, 0x400, false, 0⟩
      ⟨false, false, 0, false, 7⟩ ⟨false, false, 0, false, 7⟩
      ⟨false, false, 0, false, 7⟩ rfl rfl rfl rfl rfl rfl rfl rfl
      rfl).2.2.2 (by decide)).2.2.2.2⟩

/-- C10: every captured read address with byte offset in 0x18..0x1F is
accepted by the header select condition, yet its 3-bit word index
`address[2:5]` is 6 or 7 and indexes past the end of the 6-word header
array: the lookup has no defined value. -/
theorem header_lookup_out_of_bounds (m a : Nat) (h1 : 0x18 ≤ a)
    (h2 : a ≤ 0x1F) :
    header_sel a = true ∧ 6 ≤ header_index a ∧
    (header m).get? (header_index a) = none := by
  have hs : a / 4 / 2 ^ 7 = 0 := by omega
  have hi : header_index a = 6 ∨ header_index a = 7 := by
    unfold header_index; omega
  refine ⟨?_, ?_, ?_⟩
  · unfold header_sel
    rw [hs]
    rfl
  · rcases hi with h | h <;> omega
  · rcases hi with h | h <;> rw [h] <;> rfl

/-- C10 witness: the bound is realized at byte address 0x18 with the minimal
backing-store base. -/
theorem header_lookup_out_of_bounds_witness :
    header_sel 0x18 = true ∧ 6 ≤ header_index 0x18 ∧
    (header 0x200).get? (header_index 0x18) = none :=
  header_lookup_out_of_bounds 0x200 0x18 (by decide) (by decide)

/-- Appending one cycle to a run applies one step. -/
lemma wRun_append_singleton (s : WState) (xs : List WIn) (x : WIn) :
    wRun s (xs ++ [x]) = wStep (wRun s xs) x := by
  unfold wRun
  rw [List.foldl_append]
  rfl

/-- The trigger in any cycle `u ≤ xs.length` is unaffected by cycles after
`u`. -/
lemma trigAt_append_singleton (xs : List WIn) (x : WIn) (u : Nat)
    (hu : u ≤ xs.length) : trigAt (xs ++ [x]) u = trigAt xs u := by
  unfold trigAt
  rw [List.take_append_of_le_length hu]

/-- The low-half-valid flag after a run from reset is set exactly when some
cycle wrote the low-half offset and no later cycle (strictly before now)
asserted the trigger; under set-dominance a write landing in a trigger
cycle counts as after that trigger. -/
lemma lo_valid_char (is : List WIn) (hrst : ∀ i ∈ is, i.rst = false) :
    ((wRun wReset is).addr_lo_valid = true ↔
      ∃ t, t < is.length ∧ is_write_lo (is.getD t wIdle) = true ∧
        ∀ u, t < u → u < is.length → trigAt is u = false) := by
  induction is using List.reverseRecOn with
  | nil => simp [wRun, wReset]
  | append_singleton xs x ih =>
    have hx : x.rst = false := hrst x (by simp)
    have hxs : ∀ i ∈ xs, i.rst = false := fun i hi =>
      hrst i (by simp [hi])
    have hrun := wRun_append_singleton wReset xs x
    have hlen : (xs ++ [x]).length = xs.length + 1 := by simp
    have hgetn : (xs ++ [x]).getD xs.length wIdle = x := by
      rw [List.getD_append_right _ _ _ _ (Nat.le_refl _)]
      simp
    have htrn : trigAt (xs ++ [x]) xs.length =
        trigger_write (wRun wReset xs) := by
      unfold trigAt
      rw [List.take_append_of_le_length (Nat.le_refl _), List.take_length]
    rw [hrun, hlen]
    cases hwx : is_write_lo x with
    | true =>
      constructor
      · intro _
        refine ⟨xs.length, by omega, by rw [hgetn]; exact hwx, ?_⟩
        intro u hu1 hu2
        omega
      · intro _
        simp [wStep, hx, hwx]
    | false =>
      have hstep : (wStep (wRun wReset xs) x).addr_lo_valid =
          (if trigger_write (wRun wReset xs) then false
           else (wRun wReset xs).addr_lo_valid) := by
        simp [wStep, hx, hwx]
      rw [hstep]
      cases htr : trigger_write (wRun wReset xs) with
      | true =>
        simp only [if_true, htr]
        constructor
        · intro h
          exact absurd h (by simp)
        · rintro ⟨t, ht, hW, hns⟩
          by_cases hten : t = xs.length
          · rw [hten, hgetn] at hW
            rw [hW] at hwx
            exact Bool.noConfusion hwx
          · have htlt : t < xs.length := by omega
            have := hns xs.length htlt (by omega)
            rw [htrn, htr] at this
            exact Bool.noConfusion this
      | false =>
        rw [if_neg Bool.false_ne_true]
        rw [ih hxs]
        constructor
        · rintro ⟨t, ht, hW, hns⟩
          refine ⟨t, by omega, ?_, ?_⟩
          · rw [List.getD_append _ _ _ t ht]
            exact hW
          · intro u hu1 hu2
            by_cases huen : u = xs.length
            · rw [huen, htrn]
              exact htr
            · have hult : u < xs.length := by omega
              rw [trigAt_append_singleton xs x u (by omega)]
              exact hns u hu1 hult
        · rintro ⟨t, ht, hW, hns⟩
          have htne : t ≠ xs.length := by
            intro hc
            rw [hc, hgetn] at hW
            rw [hW] at hwx
            exact Bool.noConfusion hwx
          have htlt : t < xs.length := by omega
          refine ⟨t, htlt, ?_, ?_⟩
          · rw [List.getD_append _ _ _ t htlt] at hW
            exact hW
          · intro u hu1 hu2
            have := hns u hu1 (by omega)
            rw [trigAt_append_singleton xs x u (by omega)] at this
            exact this

/-- The high-half-valid flag after a run from reset is set exactly when
some cycle wrote the high-half offset and no later cycle asserted the
trigger, mirroring the low half. -/
lemma hi_valid_char (is : List WIn) (hrst : ∀ i ∈ is, i.rst = false) :
    ((wRun wReset is).addr_hi_valid = true ↔
      ∃ t, t < is.length ∧ is_write_hi (is.getD t wIdle) = true ∧
        ∀ u, t < u → u < is.length → trigAt is u = false) := by
  induction is using List.reverseRecOn with
  | nil => simp [wRun, wReset]
  | append_singleton xs x ih =>
    have hx : x.rst = false := hrst x (by simp)
    have hxs : ∀ i ∈ xs, i.rst = false := fun i hi =>
      hrst i (by simp [hi])
    have hrun := wRun_append_singleton wReset xs x
    have hlen : (xs ++ [x]).length = xs.length + 1 := by simp
    have hgetn : (xs ++ [x]).getD xs.length wIdle = x := by
      rw [List.getD_append_right _ _ _ _ (Nat.le_refl _)]
      simp
    have htrn : trigAt (xs ++ [x]) xs.length =
        trigger_write (wRun wReset xs) := by
      unfold trigAt
      rw [List.take_append_of_le_length (Nat.le_refl _), List.take_length]
    rw [hrun, hlen]
    cases hwx : is_write_hi x with
    | true =>
      constructor
      · intro _
        refine ⟨xs.length, by omega, by rw [hgetn]; exact hwx, ?_⟩
        intro u hu1 hu2
        omega
      · intro _
        simp [wStep, hx, hwx]
    | false =>
      have hstep : (wStep (wRun wReset xs) x).addr_hi_valid =
          (if trigger_write (wRun wReset xs) then false
           else (wRun wReset xs).addr_hi_valid) := by
        simp [wStep, hx, hwx]
      rw [hstep]
      cases htr : trigger_write (wRun wReset xs) with
      | true =>
        simp only [if_true, htr]
        constructor
        · intro h
          exact absurd h (by simp)
        · rintro ⟨t, ht, hW, hns⟩
          by_cases hten : t = xs.length
          · rw [hten, hgetn] at hW
            rw [hW] at hwx
            exact Bool.noConfusion hwx
          · have htlt : t < xs.length := by omega
            have := hns xs.length htlt (by omega)
            rw [htrn, htr] at this
            exact Bool.noConfusion this
      | false =>
        rw [if_neg Bool.false_ne_true]
        rw [ih hxs]
        constructor
        · rintro ⟨t, ht, hW, hns⟩
          refine ⟨t, by omega, ?_, ?_⟩
          · rw [List.getD_append _ _ _ t ht]
            exact hW
          · intro u hu1 hu2
            by_cases huen : u = xs.length
            · rw [huen, htrn]
              exact htr
            · have hult : u < xs.length := by omega
              rw [trigAt_append_singleton xs x u (by omega)]
              exact hns u hu1 hult
        · rintro ⟨t, ht, hW, hns⟩
          have htne : t ≠ xs.length := by
            intro hc
            rw [hc, hgetn] at hW
            rw [hW] at hwx
            exact Bool.noConfusion hwx
          have htlt : t < xs.length := by omega
          refine ⟨t, htlt, ?_, ?_⟩
          · rw [List.getD_append _ _ _ t htlt] at hW
            exact hW
          · intro u hu1 hu2
            have := hns u hu1 (by omega)
            rw [trigAt_append_singleton xs x u (by omega)] at this
            exact this

/-- An idle cycle leaves a state with both valid flags clear unchanged. -/
lemma wStep_idle_of_clear (s : WState) (h1 : s.addr_lo_valid = false)
    (h2 : s.addr_hi_valid = false) : wStep s wIdle = s := by
  cases s
  simp only at h1 h2
  simp [wStep, wIdle, is_write_lo, is_write_hi, trigger_write, h1, h2]

/-- Idle cycles preserve a state with both valid flags clear. -/
lemma wRun_idle_of_clear (s : WState) (h1 : s.addr_lo_valid = false)
    (h2 : s.addr_hi_valid = false) (k : Nat) :
    wRun s (List.replicate k wIdle) = s := by
  induction k with
  | zero => rfl
  | succ j ih =>
    rw [List.replicate_succ]
    show wRun (wStep s wIdle) (List.replicate j wIdle) = s
    rw [wStep_idle_of_clear s h1 h2]
    exact ih

/-- Count a predicate over `range n` that holds exactly at one position
`c < n`. -/
lemma countP_range_pulse (n c : Nat) (p : Nat → Bool) (hc : c < n)
    (hp : ∀ t, t < n → p t = (t == c)) : (List.range n).countP p = 1 := by
  have he : (List.range n).countP p =
      (List.range n).countP (fun t => t == c) := by
    refine List.countP_congr ?_
    intro t ht
    rw [hp t (List.mem_range.mp ht)]
  rw [he]
  exact List.count_eq_one_of_mem (List.nodup_range n)
    (List.mem_range.mpr hc)

/-- In the run from reset over a low-half write, a high-half write, then `k`
idle cycles, the trigger pulse is asserted exactly in cycle 2. -/
lemma trigAt_lo_hi (k t : Nat) (ht : t < k + 3) :
    trigAt ([wLo, wHi] ++ List.replicate k wIdle) t = (t == 2) := by
  match t with
  | 0 => rfl
  | 1 =>
    unfold trigAt
    rw [List.take_append_of_le_length (by simp)]
    rfl
  | 2 =>
    unfold trigAt
    rw [List.take_append_of_le_length (by simp)]
    rfl
  | (j + 3) =>
    unfold trigAt
    rw [List.take_append_eq_append_take]
    have h1 : List.take (j + 3) [wLo, wHi] = [wLo, wHi] := by simp
    have h2 : List.take (j + 3 - [wLo, wHi].length)
        (List.replicate k wIdle) = List.replicate (min (j + 1) k) wIdle := by
      simp [List.take_replicate]
    rw [h1, h2]
    have hmin : min (j + 1) k = j + 1 := by omega
    rw [hmin]
    show trigger_write
      (wRun (wRun wReset [wLo, wHi]) (List.replicate (j + 1) wIdle)) =
        ((j + 3 : Nat) == 2)
    rw [List.replicate_succ]
    show trigger_write
      (wRun (wStep (wRun wReset [wLo, wHi]) wIdle)
        (List.replicate j wIdle)) = ((j + 3 : Nat) == 2)
    rw [wRun_idle_of_clear _ (by rfl) (by rfl) j]
    rfl

/-- In the run from reset over two high-half writes, a low-half write, then
`k` idle cycles, the trigger pulse is asserted exactly in cycle 3. -/
lemma trigAt_hi_hi_lo (k t : Nat) (ht : t < k + 4) :
    trigAt ([wHi, wHi, wLo] ++ List.replicate k wIdle) t = (t == 3) := by
  match t with
  | 0 => rfl
  | 1 =>
    unfold trigAt
    rw [List.take_append_of_le_length (by simp)]
    rfl
  | 2 =>
    unfold trigAt
    rw [List.take_append_of_le_length (by simp)]
    rfl
  | 3 =>
    unfold trigAt
    rw [List.take_append_of_le_length (by simp)]
    rfl
  | (j + 4) =>
    unfold trigAt
    rw [List.take_append_eq_append_take]
    have h1 : List.take (j + 4) [wHi, wHi, wLo] = [wHi, wHi, wLo] := by simp
    have h2 : List.take (j + 4 - [wHi, wHi, wLo].length)
        (List.replicate k wIdle) = List.replicate (min (j + 1) k) wIdle := by
      simp [List.take_replicate]
    rw [h1, h2]
    have hmin : min (j + 1) k = j + 1 := by omega
    rw [hmin]
    show trigger_write
      (wRun (wRun wReset [wHi, wHi, wLo]) (List.replicate (j + 1) wIdle)) =
        ((j + 4 : Nat) == 3)
    rw [List.replicate_succ]
    show trigger_write
      (wRun (wStep (wRun wReset [wHi, wHi, wLo]) wIdle)
        (List.replicate j wIdle)) = ((j + 4 : Nat) == 3)
    rw [wRun_idle_of_clear _ (by rfl) (by rfl) j]
    rfl

/-- C6 counterexample: the claim that both valid flags are cleared on the
edge of the cycle in which the trigger fires fails when a write to the
low-half offset arrives in that same cycle: after the trace
low-write, high-write, low-write, the trigger fired in cycle 2, yet the
low-half-valid flag is still set afterwards (set takes priority over
clear). -/
theorem composite_trigger_clear_counterexample :
    trigAt [wLo, wHi, wLo] 2 = true ∧
    (wRun wReset [wLo, wHi, wLo]).addr_lo_valid = true := by
  decide

/-- C6 (amended): the trigger pulse is asserted in a cycle exactly when
both valid flags are set in that cycle; each valid flag is set exactly when
its offset received a write in some earlier cycle with no trigger assertion
in any strictly later cycle before now (under set-dominance a write landing
in a trigger cycle counts as after that trigger); and on a trigger edge
each flag clears unless that half's offset is written in that same cycle,
in which case it remains set (set priority). -/
theorem composite_trigger_characterization (is : List WIn)
    (hrst : ∀ i ∈ is, i.rst = false) :
    (∀ t, trigAt is t =
      ((wRun wReset (is.take t)).addr_lo_valid &&
       (wRun wReset (is.take t)).addr_hi_valid)) ∧
    ((wRun wReset is).addr_lo_valid = true ↔
      ∃ t, t < is.length ∧ is_write_lo (is.getD t wIdle) = true ∧
        ∀ u, t < u → u < is.length → trigAt is u = false) ∧
    ((wRun wReset is).addr_hi_valid = true ↔
      ∃ t, t < is.length ∧ is_write_hi (is.getD t wIdle) = true ∧
        ∀ u, t < u → u < is.length → trigAt is u = false) ∧
    (∀ s i, i.rst = false → trigger_write s = true →
      (wStep s i).addr_lo_valid = is_write_lo i ∧
      (wStep s i).addr_hi_valid = is_write_hi i) := by
  refine ⟨fun t => rfl, lo_valid_char is hrst, hi_valid_char is hrst, ?_⟩
  intro s i hrsti htr
  constructor
  · cases h : is_write_lo i <;> simp [wStep, hrsti, htr, h]
  · cases h : is_write_hi i <;> simp [wStep, hrsti, htr, h]

/-- C6 witness: hypotheses realized on the two-cycle trace low-write then
high-write; in cycle 2 the trigger is the conjunction of the two valid
flags and all three are set. -/
theorem composite_trigger_characterization_witness :
    trigAt [wLo, wHi] 2 =
      ((wRun wReset ([wLo, wHi].take 2)).addr_lo_valid &&
       (wRun wReset ([wLo, wHi].take 2)).addr_hi_valid) ∧
    trigAt [wLo, wHi] 2 = true :=
  ⟨(composite_trigger_characterization [wLo, wHi] (by decide)).1 2,
    by decide⟩

/-- C7: trigger generation is order- and count-independent: from reset, a
low-half write followed by a high-half write produces exactly one trigger
pulse over any observation horizon, and two high-half writes followed by
one low-half write also produce exactly one trigger pulse. -/
theorem trigger_pulse_once (k : Nat) :
    triggerCount ([wLo, wHi] ++ List.replicate k wIdle) = 1 ∧
    triggerCount ([wHi, wHi, wLo] ++ List.replicate k wIdle) = 1 := by
  constructor
  · unfold triggerCount
    have hlen : ([wLo, wHi] ++ List.replicate k wIdle).length + 1 = k + 3 := by
      simp
    rw [hlen]
    exact countP_range_pulse (k + 3) 2 _ (by omega) (trigAt_lo_hi k)
  · unfold triggerCount
    have hlen : ([wHi, wHi, wLo] ++ List.replicate k wIdle).length + 1 =
        k + 4 := by simp
    rw [hlen]
    exact countP_range_pulse (k + 4) 3 _ (by omega) (trigAt_hi_hi_lo k)

/-- C1: single-outstanding-read discipline, as a property of every clock
edge (absent reset): `arready` is the negation of the outstanding flag; no
address phase completes while the flag is set; the flag becomes set only
when an address phase completes while it is clear; and a set flag clears
only when the response is valid (`rvalid`) and accepted (`rready`) in the
same cycle. -/
theorem read_single_outstanding (m : Nat) (s : RState) (i : RIn)
    (hrst : i.rst = false) :
    (arready s = !s.req_outstanding) ∧
    (s.req_outstanding = true → address_written s i = false) ∧
    ((rStep m s i).req_outstanding = true → s.req_outstanding = false →
      address_written s i = true) ∧
    (s.req_outstanding = true → (rStep m s i).req_outstanding = false →
      rvalid s = true ∧ i.rready = true) := by
  refine ⟨rfl, ?_, ?_, ?_⟩
  · intro h
    simp [address_written, h]
  · intro hnext hclear
    by_contra haw
    simp only [rStep, hrst, if_false, Bool.false_eq_true] at hnext
    rw [Bool.not_eq_true] at haw
    rw [haw] at hnext
    simp only [Bool.false_eq_true, if_false] at hnext
    by_cases hrw : response_written s i = true
    · rw [hrw] at hnext; simp at hnext
    · rw [Bool.not_eq_true] at hrw
      rw [hrw] at hnext
      simp only [Bool.false_eq_true, if_false] at hnext
      rw [hclear] at hnext
      exact Bool.false_ne_true hnext
  · intro hset hnext
    have haw : address_written s i = false := by
      simp [address_written, hset]
    simp only [rStep, hrst, Bool.false_eq_true, if_false, haw] at hnext
    by_cases hrw : response_written s i = true
    · unfold response_written at hrw
      exact ⟨(Bool.and_eq_true _ _).mp hrw |>.1,
        (Bool.and_eq_true _ _).mp hrw |>.2⟩
    · rw [Bool.not_eq_true] at hrw
      rw [hrw] at hnext
      simp only [Bool.false_eq_true, if_false] at hnext
      rw [hset] at hnext
      exact absurd hnext.symm Bool.false_ne_true

/-- C1 witness: hypotheses realized at reset with an address-phase
assertion; the address phase completes there and the flag becomes set. -/
theorem read_single_outstanding_witness :
    (⟨false, true, 8, false, 0⟩ : RIn).rst = false ∧
    arready rReset = !rReset.req_outstanding ∧
    address_written rReset ⟨false, true, 8, false, 0⟩ = true :=
  ⟨rfl,
    (read_single_outstanding 512 rReset ⟨false, true, 8, false, 0⟩ rfl).1,
    (read_single_outstanding 512 rReset ⟨false, true, 8, false, 0⟩
        rfl).2.2.1 rfl rfl⟩

end AxiMMIO
